import Mathlib

/-!
# Verification of the rules-resolution core of the grid card-game engine

This file gives a shallow embedding of the data model and operations of the
engine's rules core — the 5×4 board topology (`Board.py`), the per-player deck
zones (`Deck.py`, `Card.py`), and the triggered-event storyline queue
(`Rules_Engine.py`) — and proves the specification's claims about them.

Python lists become Lean `List`s, Python `int` becomes `Int`, optional returns
become `Option`, and `random.shuffle` is modelled by quantifying over an
arbitrary permutation of the list being shuffled.
-/

/-- A card as the deck operations see it (`Deck.__init__` reads only the
`card_type` attribute; `name` carries identity).  Mirrors the catalog data the
loader passes into `Deck`. -/
structure Card where
  name : String
  card_type : String
deriving DecidableEq, Repr, Inhabited

namespace Board

/-- `Board.ROWS = 5`. -/
def ROWS : Nat := 5

/-- `Board.COLS = 4`. -/
def COLS : Nat := 4

/-- One grid cell, as initialised by `Location.__init__` (all runtime fields
empty) with `index` then assigned by `Board.__init__`. -/
structure Location where
  site : Option Card
  surfaceSpells : List Card
  subSurfaceSpells : List Card
  isWater : Bool
  bodyIndex : Int
  index : Int
deriving DecidableEq, Repr

instance : Inhabited Location :=
  ⟨{ site := none, surfaceSpells := [], subSurfaceSpells := [],
     isWater := false, bodyIndex := -1, index := -1 }⟩

/-- A fresh `Location()` whose `index` has been set to `idx`. -/
def mkLocation (idx : Int) : Location :=
  { site := none, surfaceSpells := [], subSurfaceSpells := [],
    isWater := false, bodyIndex := -1, index := idx }

/-- The inner loop of `Board.__init__`: one row of `cols` locations, indices
counting up from `idx`. -/
def buildRow : Nat → Int → List Location
  | 0, _ => []
  | n + 1, idx => mkLocation idx :: buildRow n (idx + 1)

/-- The outer loop of `Board.__init__`: `rows` rows of `cols` locations each,
with the running index continuing across rows. -/
def buildRows : Nat → Nat → Int → List (List Location)
  | 0, _, _ => []
  | n + 1, cols, idx => buildRow cols idx :: buildRows n cols (idx + cols)

/-- `self.locations` after `Board.__init__`: a 5×4 grid with a running 1-based
index assigned row-major. -/
def locations : List (List Location) := buildRows ROWS COLS 1

/-- `self.locations[r][c]` for coordinates the caller has already
bounds-checked (out-of-range reads fall back to a default that no guarded call
site ever hits). -/
def locationAt (r c : Int) : Location :=
  (locations.getD r.toNat []).getD c.toNat default

/-- The bounds test `0 <= r < self.ROWS and 0 <= c < self.COLS`. -/
def inBoundsP (r c : Int) : Prop :=
  0 ≤ r ∧ r < (ROWS : Int) ∧ 0 ≤ c ∧ c < (COLS : Int)

instance (r c : Int) : Decidable (inBoundsP r c) := by
  unfold inBoundsP; infer_instance

/-- `Board.get_location`: bounds-checked lookup, `None` out of range. -/
def get_location (row col : Int) : Option Location :=
  if inBoundsP row col then some (locationAt row col) else none

/-- A corner point of the grid (`Intersection.__init__`): its `spells` list
starts empty and its `adjacent_locations` are fixed at construction. -/
structure Intersection where
  spells : List Card
  adjacent_locations : List Location
deriving DecidableEq, Repr

/-- `Board.create_intersections`: for each cell, the 2×2 block
{self, east, south, south-east} when both the south and east neighbours exist;
otherwise south (if any), then east (if any), then always the base cell. -/
def create_intersections : List (List Intersection) :=
  (List.range ROWS).map fun i =>
    (List.range COLS).map fun j =>
      let adj : List Location :=
        if i < ROWS - 1 ∧ j < COLS - 1 then
          [locationAt i j, locationAt i (j + 1),
           locationAt (i + 1) j, locationAt (i + 1) (j + 1)]
        else
          (if i < ROWS - 1 then [locationAt (i + 1) j] else []) ++
          (if j < COLS - 1 then [locationAt i (j + 1)] else []) ++
          [locationAt i j]
      { spells := [], adjacent_locations := adj }

/-- `self.intersections[r][c]` for bounds-checked coordinates. -/
def intersectionAt (r c : Int) : Intersection :=
  ((create_intersections).getD r.toNat []).getD c.toNat ⟨[], []⟩

/-- `Board.get_intersection`: bounds-checked lookup, `None` out of range. -/
def get_intersection (row col : Int) : Option Intersection :=
  if inBoundsP row col then some (intersectionAt row col) else none

/-- The direction list `[(-1,0),(1,0),(0,-1),(0,1)]` (up, down, left, right)
shared by `get_projectile_locations` and `get_adjacent_locations`. -/
def directions : List (Int × Int) := [(-1, 0), (1, 0), (0, -1), (0, 1)]

/-- The while loop of `get_projectile_locations`: step by `(dr, dc)` from
`(r, c)`, collecting `(r, c, location)` triples while in bounds.  The loop
visits at most `ROWS` or `COLS` cells, so fuel `ROWS + COLS` never runs out
(proved below as `lineWalk_length_lt`). -/
def lineWalk (dr dc : Int) : Nat → Int → Int → List (Int × Int × Location)
  | 0, _, _ => []
  | fuel + 1, r, c =>
    if inBoundsP r c then
      (r, c, locationAt r c) :: lineWalk dr dc fuel (r + dr) (c + dc)
    else []

/-- `Board.get_projectile_locations`: one ray per cardinal direction, walking
outward from (and excluding) the origin to the grid edge. -/
def get_projectile_locations (row col : Int) : List (List (Int × Int × Location)) :=
  directions.map fun d => lineWalk d.1 d.2 (ROWS + COLS) (row + d.1) (col + d.2)

/-- `Board.get_adjacent_locations`: the four orthogonal neighbours filtered by
the bounds check inside `get_location`. -/
def get_adjacent_locations (row col : Int) : List (Int × Int × Location) :=
  directions.filterMap fun d =>
    match get_location (row + d.1) (col + d.2) with
    | some loc => some (row + d.1, col + d.2, loc)
    | none => none

end Board

/-- The five zones of `Deck.__init__`.  `atlas`, `spellbook` and `library` are
the three comprehensions over the incoming card list; `hand` and `cemetery`
start empty; `library` is then shuffled in place. -/
@[ext]
structure Deck where
  atlas : List Card
  spellbook : List Card
  hand : List Card
  cemetery : List Card
  library : List Card
deriving DecidableEq, Repr

namespace Deck

/-- Membership test `card.card_type in ['Magic', 'Aura', 'Artifact']`. -/
def isSpellbookType (c : Card) : Bool :=
  c.card_type = "Magic" ∨ c.card_type = "Aura" ∨ c.card_type = "Artifact"

/-- `Deck.__init__(cards)`.  `random.shuffle(self.library)` replaces the
library list with a permutation of itself; the permutation chosen by the RNG
is passed in as `shuffledLib`, constrained to be a permutation of the
unshuffled comprehension in every theorem below. -/
def init (cards : List Card) (shuffledLib : List Card) : Deck :=
  { atlas := cards.filter fun c => c.card_type = "Site"
    spellbook := cards.filter isSpellbookType
    hand := []
    cemetery := []
    library := shuffledLib }

/-- The library comprehension of `Deck.__init__` before the shuffle:
`[card for card in cards if card.card_type not in ['Site']]`. -/
def initLibrary (cards : List Card) : List Card :=
  cards.filter fun c => ¬ c.card_type = "Site"

/-- One iteration of the loop in `Deck.draw`: `if self.library:
self.hand.append(self.library.pop())` — pop from the end of the library onto
the end of the hand, a no-op on an empty library. -/
def draw1 (d : Deck) : Deck :=
  match d.library.getLast? with
  | none => d
  | some c => { d with hand := d.hand ++ [c], library := d.library.dropLast }

/-- `Deck.draw(n)`: the pop-append step run `n` times. -/
def draw (d : Deck) : Nat → Deck
  | 0 => d
  | n + 1 => d.draw1.draw n

/-- `Deck.shuffle` (and the `random.shuffle` calls inside `mulligan` and
`return_to_deck`): the library is replaced by the RNG's permutation of it,
passed in as `shuffledLib`. -/
def shuffle (d : Deck) (shuffledLib : List Card) : Deck :=
  { d with library := shuffledLib }

/-- `Deck.mulligan`: extend the library with the hand, empty the hand,
shuffle, draw 7.  `shuffledLib` is the RNG's permutation of
`library ++ hand`. -/
def mulligan (d : Deck) (shuffledLib : List Card) : Deck :=
  (shuffle { d with library := d.library ++ d.hand, hand := [] } shuffledLib).draw 7

end Deck

/-- A triggered event on the storyline, per the spec's StorylineEvent data
model: the controlling player and the ability that fired (the fields the
timing law mentions). -/
structure StorylineEvent where
  controller : Nat
  ability : Nat
deriving DecidableEq, Repr

namespace RulesEngine

/-- `RulesEngine.insert_triggered_event`: `self.storyline.append(event)` —
events enter at the tail (the spec's default `Append` insert mode). -/
def insert_triggered_event (storyline : List StorylineEvent) (event : StorylineEvent) :
    List StorylineEvent :=
  storyline ++ [event]

/-- Modelled from the spec: `RulesEngine.enforce_timing` is an empty stub in
the source, so the placement protocol is taken from the spec's StorylineQueue
transition rule — when an action produces simultaneous triggers, the
non-active player places all of their triggered events into the queue first
(each via `insert_triggered_event`, i.e. default `Append` mode), then the
active player places theirs. -/
def place_simultaneous_triggers (storyline nonActive active : List StorylineEvent) :
    List StorylineEvent :=
  (nonActive ++ active).foldl insert_triggered_event storyline

/-- Modelled from the spec: FIFO draining (`enforce_timing` is an empty stub)
— the oldest-inserted event resolves first, so the resolution order of a
drained queue is the queue list itself, head first. -/
def fifo_resolution_order (storyline : List StorylineEvent) : List StorylineEvent :=
  storyline

end RulesEngine

/-! ## Storyline claim -/

/-- Inserting a batch of events one at a time through
`RulesEngine.insert_triggered_event` appends the batch to the queue. -/
theorem RulesEngine.insert_batch_eq_append (events storyline : List StorylineEvent) :
    events.foldl RulesEngine.insert_triggered_event storyline = storyline ++ events := by
  induction events generalizing storyline with
  | nil => simp
  | cons e es ih =>
    simp only [List.foldl_cons, ih, RulesEngine.insert_triggered_event]
    simp

/-- The placement protocol yields the queue `storyline ++ nonActive ++ active`. -/
theorem RulesEngine.place_simultaneous_triggers_eq
    (storyline nonActive active : List StorylineEvent) :
    RulesEngine.place_simultaneous_triggers storyline nonActive active =
      storyline ++ nonActive ++ active := by
  unfold RulesEngine.place_simultaneous_triggers
  rw [RulesEngine.insert_batch_eq_append, List.append_assoc]

/-- C1: when an action fires simultaneous triggers from both players and the
storyline queue (starting from any prior contents) is filled by the
non-active player's events first, then the active player's, each through
`insert_triggered_event` (default Append mode), then under FIFO draining
every non-active-player event resolves strictly before every active-player
event of that action: the i-th non-active event sits at resolution position
`|q| + i`, the j-th active event at `|q| + |nonActive| + j`, and the former
position is strictly smaller. -/
theorem storyline_nonactive_resolves_first
    (q nonActive active : List StorylineEvent) (i j : Nat) (e f : StorylineEvent)
    (he : nonActive[i]? = some e) (hf : active[j]? = some f) :
    (RulesEngine.fifo_resolution_order
        (RulesEngine.place_simultaneous_triggers q nonActive active))[q.length + i]? =
      some e ∧
    (RulesEngine.fifo_resolution_order
        (RulesEngine.place_simultaneous_triggers q nonActive active))[q.length +
          nonActive.length + j]? = some f ∧
    q.length + i < q.length + nonActive.length + j := by
  have hi : i < nonActive.length := by
    by_contra hcon
    rw [List.getElem?_eq_none (by omega)] at he
    exact Option.noConfusion he
  rw [RulesEngine.fifo_resolution_order, RulesEngine.place_simultaneous_triggers_eq]
  refine ⟨?_, ?_, by omega⟩
  · rw [List.getElem?_append_left (by rw [List.length_append]; omega)]
    rw [List.getElem?_append_right (by omega), Nat.add_sub_cancel_left]
    exact he
  · rw [List.getElem?_append_right (by rw [List.length_append]; omega)]
    rw [List.length_append, Nat.add_sub_cancel_left]
    exact hf

/-- Witness for C1: a queue holding one older event, one non-active trigger
and one active trigger; the non-active trigger resolves at position 1, before
the active trigger at position 2. -/
theorem storyline_nonactive_resolves_first_witness :
    (RulesEngine.fifo_resolution_order
        (RulesEngine.place_simultaneous_triggers [⟨0, 10⟩] [⟨1, 20⟩] [⟨0, 30⟩]))[1]? =
      some ⟨1, 20⟩ ∧
    (RulesEngine.fifo_resolution_order
        (RulesEngine.place_simultaneous_triggers [⟨0, 10⟩] [⟨1, 20⟩] [⟨0, 30⟩]))[2]? =
      some ⟨0, 30⟩ ∧
    (1 : Nat) < 2 := by
  have h := storyline_nonactive_resolves_first
    [⟨0, 10⟩] [⟨1, 20⟩] [⟨0, 30⟩] 0 0 ⟨1, 20⟩ ⟨0, 30⟩ (by decide) (by decide)
  simpa using h

/-! ## Board claims -/

/-- C2: every `Intersection` produced by `Board.create_intersections` on the
5×4 board has between 1 and 4 adjacent locations, always containing the base
location at its own row and column; and when the cell has both a south and an
east neighbour, the list is exactly the 2×2 block
{self, east, south, south-east}. -/
theorem intersection_adjacency_spec :
    ∀ i < Board.ROWS, ∀ j < Board.COLS,
      1 ≤ (Board.intersectionAt i j).adjacent_locations.length ∧
      (Board.intersectionAt i j).adjacent_locations.length ≤ 4 ∧
      Board.locationAt i j ∈ (Board.intersectionAt i j).adjacent_locations ∧
      (i < Board.ROWS - 1 → j < Board.COLS - 1 →
        (Board.intersectionAt i j).adjacent_locations =
          [Board.locationAt i j, Board.locationAt i (j + 1),
           Board.locationAt (i + 1) j, Board.locationAt (i + 1) (j + 1)]) := by
  decide

/-- Witness for C2: the interior cell (1, 2) instantiates every hypothesis of
`intersection_adjacency_spec`. -/
theorem intersection_adjacency_spec_witness :
    Board.locationAt 1 2 ∈ (Board.intersectionAt 1 2).adjacent_locations ∧
    (Board.intersectionAt 1 2).adjacent_locations =
      [Board.locationAt 1 2, Board.locationAt 1 3,
       Board.locationAt 2 2, Board.locationAt 2 3] :=
  ⟨(intersection_adjacency_spec 1 (by decide) 2 (by decide)).2.2.1,
   (intersection_adjacency_spec 1 (by decide) 2 (by decide)).2.2.2
     (by decide) (by decide)⟩

/-- C9: after `Board.__init__`, the location at (row, col) has the 1-based
row-major index `row*4 + col + 1`, and the 20 indices across the grid are
exactly 1 through 20 with no collision. -/
theorem location_indices_row_major :
    (∀ i < Board.ROWS, ∀ j < Board.COLS,
      (Board.locationAt i j).index = (i : Int) * 4 + (j : Int) + 1) ∧
    Board.locations.flatten.map Board.Location.index =
      (List.range (Board.ROWS * Board.COLS)).map (fun k => (k : Int) + 1) := by
  decide

/-- Witness for C9: the formula at the concrete cell (3, 2). -/
theorem location_indices_row_major_witness :
    (Board.locationAt 3 2).index = (3 : Int) * 4 + 2 + 1 :=
  location_indices_row_major.1 3 (by decide) 2 (by decide)

/-- The coordinates of the cells `Board.get_adjacent_locations` returns. -/
def Board.adjCoords (r c : Int) : List (Int × Int) :=
  (Board.get_adjacent_locations r c).map fun e => (e.1, e.2.1)

/-- Cell (r, c) appears in the adjacency of (r2, c2) whenever (r2, c2) appears
in the adjacency of (r, c). -/
def Board.adjSymAt (r c r2 c2 : Nat) : Prop :=
  ((r2 : Int), (c2 : Int)) ∈ Board.adjCoords r c →
    ((r : Int), (c : Int)) ∈ Board.adjCoords r2 c2

instance (r c r2 c2 : Nat) : Decidable (Board.adjSymAt r c r2 c2) := by
  unfold Board.adjSymAt; infer_instance

/-- C8: for all valid cells of the 5×4 board, `Board.get_adjacent_locations`
returns at most 4 results, each an in-bounds orthogonal neighbour (Manhattan
distance 1), and the relation is symmetric: if cell B appears in the adjacency
of cell A then A appears in the adjacency of B. -/
theorem adjacent_locations_spec :
    ∀ r < Board.ROWS, ∀ c < Board.COLS,
      (Board.get_adjacent_locations r c).length ≤ 4 ∧
      (∀ e ∈ Board.get_adjacent_locations r c,
        Board.inBoundsP e.1 e.2.1 ∧
        (e.1 - (r : Int)).natAbs + (e.2.1 - (c : Int)).natAbs = 1) ∧
      (∀ r2 < Board.ROWS, ∀ c2 < Board.COLS, Board.adjSymAt r c r2 c2) := by
  decide

/-- Witness for C8: cell (0, 0) has the corner cell (1, 0) as a neighbour and
the relation is symmetric there. -/
theorem adjacent_locations_spec_witness :
    ((0 : Int), (0 : Int)) ∈ Board.adjCoords 1 0 :=
  (adjacent_locations_spec 0 (by decide) 0 (by decide)).2.2 1 (by decide) 0
    (by decide) (by decide)

namespace Board

/-- The while loop never produces more entries than it has fuel. -/
theorem lineWalk_length_le (dr dc : Int) (fuel : Nat) (r c : Int) :
    (lineWalk dr dc fuel r c).length ≤ fuel := by
  induction fuel generalizing r c with
  | zero => simp [lineWalk]
  | succ fuel ih =>
    simp only [lineWalk]
    split
    · simpa [Nat.succ_le_succ_iff] using ih (r + dr) (c + dc)
    · simp

/-- Every entry of the while loop is the k-th step from its start, and every
visited cell passed the bounds check. -/
theorem lineWalk_getElem (dr dc : Int) (fuel : Nat) (r c : Int) (k : Nat)
    (h : k < (lineWalk dr dc fuel r c).length) :
    (lineWalk dr dc fuel r c)[k]? =
      some (r + (k : Int) * dr, c + (k : Int) * dc,
        locationAt (r + (k : Int) * dr) (c + (k : Int) * dc)) ∧
    inBoundsP (r + (k : Int) * dr) (c + (k : Int) * dc) := by
  induction fuel generalizing r c k with
  | zero => simp [lineWalk] at h
  | succ fuel ih =>
    simp only [lineWalk] at h ⊢
    by_cases hb : inBoundsP r c
    · rw [if_pos hb] at h ⊢
      cases k with
      | zero => simpa using hb
      | succ k =>
        rw [List.getElem?_cons_succ]
        have hlen : k < (lineWalk dr dc fuel (r + dr) (c + dc)).length := by
          simpa using h
        have hrec := ih (r + dr) (c + dc) k hlen
        have harith1 : r + dr + (k : Int) * dr = r + ((k : Nat) + 1 : Nat) * dr := by
          push_cast; ring
        have harith2 : c + dc + (k : Int) * dc = c + ((k : Nat) + 1 : Nat) * dc := by
          push_cast; ring
        rw [harith1, harith2] at hrec
        exact hrec
    · rw [if_neg hb] at h
      simp at h

/-- When the loop stops with fuel to spare, the next cell after the last
entry failed the bounds check: the ray really runs to the grid edge. -/
theorem lineWalk_next_out_of_bounds (dr dc : Int) (fuel : Nat) (r c : Int)
    (h : (lineWalk dr dc fuel r c).length < fuel) :
    ¬ inBoundsP (r + ((lineWalk dr dc fuel r c).length : Int) * dr)
        (c + ((lineWalk dr dc fuel r c).length : Int) * dc) := by
  induction fuel generalizing r c with
  | zero => omega
  | succ fuel ih =>
    simp only [lineWalk] at h ⊢
    by_cases hb : inBoundsP r c
    · rw [if_pos hb] at h ⊢
      have hlen : (lineWalk dr dc fuel (r + dr) (c + dc)).length < fuel := by
        simpa using h
      have hrec := ih (r + dr) (c + dc) hlen
      have harith1 : r + dr + ((lineWalk dr dc fuel (r + dr) (c + dc)).length : Int) * dr =
          r + (((lineWalk dr dc fuel (r + dr) (c + dc)).length : Nat) + 1 : Nat) * dr := by
        push_cast; ring
      have harith2 : c + dc + ((lineWalk dr dc fuel (r + dr) (c + dc)).length : Int) * dc =
          c + (((lineWalk dr dc fuel (r + dr) (c + dc)).length : Nat) + 1 : Nat) * dc := by
        push_cast; ring
      rw [harith1, harith2] at hrec
      simpa using hrec
    · rw [if_neg hb] at h ⊢
      simpa using hb

/-- With fuel `ROWS + COLS` the loop always stops strictly early: a cardinal
ray can visit at most `max ROWS COLS = 5 < 9` in-bounds cells. -/
theorem lineWalk_length_lt (dr dc : Int) (hd : ¬ (dr = 0 ∧ dc = 0)) (r c : Int) :
    (lineWalk dr dc (ROWS + COLS) r c).length < ROWS + COLS := by
  by_contra hcon
  have hle := lineWalk_length_le dr dc (ROWS + COLS) r c
  have h9 : (lineWalk dr dc (ROWS + COLS) r c).length = 9 := by
    simp only [ROWS, COLS] at hcon hle ⊢
    omega
  have h0 := (lineWalk_getElem dr dc (ROWS + COLS) r c 0 (by omega)).2
  have h8 := (lineWalk_getElem dr dc (ROWS + COLS) r c 8 (by omega)).2
  simp only [inBoundsP, ROWS, COLS] at h0 h8
  push_cast at h0 h8
  exact hd ⟨by omega, by omega⟩

/-- Full specification of one cardinal ray (`hunit` says the direction is a
unit step): entries are the consecutive steps outward from the origin, all in
bounds, never the origin, at strictly increasing Manhattan distance, and the
step after the last entry is off the grid. -/
theorem ray_spec (row col dr dc : Int) (hunit : dr.natAbs + dc.natAbs = 1)
    (ray : List (Int × Int × Location))
    (hray : ray = lineWalk dr dc (ROWS + COLS) (row + dr) (col + dc)) :
    (∀ i : Nat, i < ray.length →
      ray[i]? = some (row + ((i : Int) + 1) * dr, col + ((i : Int) + 1) * dc,
        locationAt (row + ((i : Int) + 1) * dr) (col + ((i : Int) + 1) * dc))) ∧
    (∀ e ∈ ray, inBoundsP e.1 e.2.1) ∧
    (∀ e ∈ ray, ¬ (e.1 = row ∧ e.2.1 = col)) ∧
    List.Pairwise (fun a b =>
      (a.1 - row).natAbs + (a.2.1 - col).natAbs <
        (b.1 - row).natAbs + (b.2.1 - col).natAbs) ray ∧
    ¬ inBoundsP (row + ((ray.length : Int) + 1) * dr)
        (col + ((ray.length : Int) + 1) * dc) := by
  subst hray
  have hchar : ∀ i : Nat,
      i < (lineWalk dr dc (ROWS + COLS) (row + dr) (col + dc)).length →
      (lineWalk dr dc (ROWS + COLS) (row + dr) (col + dc))[i]? =
        some (row + ((i : Int) + 1) * dr, col + ((i : Int) + 1) * dc,
          locationAt (row + ((i : Int) + 1) * dr) (col + ((i : Int) + 1) * dc)) ∧
      inBoundsP (row + ((i : Int) + 1) * dr) (col + ((i : Int) + 1) * dc) := by
    intro i hi
    have h := lineWalk_getElem dr dc (ROWS + COLS) (row + dr) (col + dc) i hi
    have e1 : row + dr + (i : Int) * dr = row + ((i : Int) + 1) * dr := by ring
    have e2 : col + dc + (i : Int) * dc = col + ((i : Int) + 1) * dc := by ring
    rw [e1, e2] at h
    exact h
  have hget : ∀ (i : Nat) (hi :
      i < (lineWalk dr dc (ROWS + COLS) (row + dr) (col + dc)).length),
      (lineWalk dr dc (ROWS + COLS) (row + dr) (col + dc)).get ⟨i, hi⟩ =
        (row + ((i : Int) + 1) * dr, col + ((i : Int) + 1) * dc,
          locationAt (row + ((i : Int) + 1) * dr) (col + ((i : Int) + 1) * dc)) := by
    intro i hi
    have h1 := (hchar i hi).1
    rw [List.getElem?_eq_getElem hi] at h1
    rw [List.get_eq_getElem]
    exact Option.some.inj h1
  refine ⟨fun i hi => (hchar i hi).1, ?_, ?_, ?_, ?_⟩
  · intro e he
    obtain ⟨⟨i, hi⟩, rfl⟩ := List.mem_iff_get.mp he
    rw [hget i hi]
    exact (hchar i hi).2
  · intro e he
    obtain ⟨⟨i, hi⟩, rfl⟩ := List.mem_iff_get.mp he
    rw [hget i hi]
    rintro ⟨h1, h2⟩
    simp only at h1 h2
    have hdr : dr = 0 := by
      have hz : ((i : Int) + 1) * dr = 0 := by linarith
      rcases mul_eq_zero.mp hz with hz | hz
      · omega
      · exact hz
    have hdc : dc = 0 := by
      have hz : ((i : Int) + 1) * dc = 0 := by linarith
      rcases mul_eq_zero.mp hz with hz | hz
      · omega
      · exact hz
    rw [hdr, hdc] at hunit
    simp at hunit
  · rw [List.pairwise_iff_getElem]
    intro i j hi hj hij
    have gi := hget i hi
    have gj := hget j hj
    rw [List.get_eq_getElem] at gi gj
    rw [gi, gj]
    simp only
    have key : ∀ m : Nat,
        ((row + ((m : Int) + 1) * dr) - row).natAbs +
          ((col + ((m : Int) + 1) * dc) - col).natAbs = m + 1 := by
      intro m
      have e1 : (row + ((m : Int) + 1) * dr) - row = ((m : Int) + 1) * dr := by ring
      have e2 : (col + ((m : Int) + 1) * dc) - col = ((m : Int) + 1) * dc := by ring
      rw [e1, e2, Int.natAbs_mul, Int.natAbs_mul]
      have e3 : ((m : Int) + 1).natAbs = m + 1 := by omega
      rw [e3, ← Nat.mul_add, hunit, Nat.mul_one]
    rw [key i, key j]
    omega
  · have hd : ¬ (dr = 0 ∧ dc = 0) := by
      rintro ⟨h1, h2⟩
      rw [h1, h2] at hunit
      simp at hunit
    have hlt := lineWalk_length_lt dr dc hd (row + dr) (col + dc)
    have hnext := lineWalk_next_out_of_bounds dr dc (ROWS + COLS)
      (row + dr) (col + dc) hlt
    have e1 : row + dr +
        ((lineWalk dr dc (ROWS + COLS) (row + dr) (col + dc)).length : Int) * dr =
        row + (((lineWalk dr dc (ROWS + COLS) (row + dr) (col + dc)).length : Int) + 1)
          * dr := by ring
    have e2 : col + dc +
        ((lineWalk dr dc (ROWS + COLS) (row + dr) (col + dc)).length : Int) * dc =
        col + (((lineWalk dr dc (ROWS + COLS) (row + dr) (col + dc)).length : Int) + 1)
          * dc := by ring
    rw [e1, e2] at hnext
    exact hnext

end Board

/-- C3: for every (row, col), `Board.get_projectile_locations` returns
exactly 4 sequences, one per cardinal direction; each sequence walks
origin-outward in consecutive unit steps (the i-th entry is the (i+1)-th step
in that direction), contains only in-bounds cells, never contains the origin
cell, is strictly increasing in Manhattan distance from the origin, and runs
all the way to the grid edge (the step past the last entry is out of
bounds). -/
theorem projectile_locations_spec (row col : Int) :
    (Board.get_projectile_locations row col).length = 4 ∧
    ∀ k < 4,
      (∀ i : Nat, i < ((Board.get_projectile_locations row col).getD k []).length →
        ((Board.get_projectile_locations row col).getD k [])[i]? =
          some (row + ((i : Int) + 1) * (Board.directions.getD k (0, 0)).1,
                col + ((i : Int) + 1) * (Board.directions.getD k (0, 0)).2,
                Board.locationAt
                  (row + ((i : Int) + 1) * (Board.directions.getD k (0, 0)).1)
                  (col + ((i : Int) + 1) * (Board.directions.getD k (0, 0)).2))) ∧
      (∀ e ∈ (Board.get_projectile_locations row col).getD k [],
        Board.inBoundsP e.1 e.2.1) ∧
      (∀ e ∈ (Board.get_projectile_locations row col).getD k [],
        ¬ (e.1 = row ∧ e.2.1 = col)) ∧
      List.Pairwise (fun a b =>
        (a.1 - row).natAbs + (a.2.1 - col).natAbs <
          (b.1 - row).natAbs + (b.2.1 - col).natAbs)
        ((Board.get_projectile_locations row col).getD k []) ∧
      ¬ Board.inBoundsP
          (row +
            ((((Board.get_projectile_locations row col).getD k []).length : Int) + 1) *
            (Board.directions.getD k (0, 0)).1)
          (col +
            ((((Board.get_projectile_locations row col).getD k []).length : Int) + 1) *
            (Board.directions.getD k (0, 0)).2) := by
  refine ⟨rfl, ?_⟩
  intro k hk
  interval_cases k
  · exact Board.ray_spec row col (-1) 0 (by decide) _ rfl
  · exact Board.ray_spec row col 1 0 (by decide) _ rfl
  · exact Board.ray_spec row col 0 (-1) (by decide) _ rfl
  · exact Board.ray_spec row col 0 1 (by decide) _ rfl

/-- Witness for C3: the downward ray from (2, 1) has (3, 1) as its first
entry, is strictly increasing in Manhattan distance, and its step past the
last entry (row 5) is off the grid. -/
theorem projectile_locations_spec_witness :
    ((Board.get_projectile_locations 2 1).getD 1 [])[0]? =
      some (2 + ((0 : Int) + 1) * (Board.directions.getD 1 (0, 0)).1,
            1 + ((0 : Int) + 1) * (Board.directions.getD 1 (0, 0)).2,
            Board.locationAt (2 + ((0 : Int) + 1) * (Board.directions.getD 1 (0, 0)).1)
              (1 + ((0 : Int) + 1) * (Board.directions.getD 1 (0, 0)).2)) ∧
    List.Pairwise (fun a b =>
      (a.1 - 2).natAbs + (a.2.1 - 1).natAbs <
        (b.1 - 2).natAbs + (b.2.1 - 1).natAbs)
      ((Board.get_projectile_locations 2 1).getD 1 []) ∧
    ¬ Board.inBoundsP
        (2 + ((((Board.get_projectile_locations 2 1).getD 1 []).length : Int) + 1) *
          (Board.directions.getD 1 (0, 0)).1)
        (1 + ((((Board.get_projectile_locations 2 1).getD 1 []).length : Int) + 1) *
          (Board.directions.getD 1 (0, 0)).2) :=
  ⟨((projectile_locations_spec 2 1).2 1 (by decide)).1 0 (by decide),
   ((projectile_locations_spec 2 1).2 1 (by decide)).2.2.2.1,
   ((projectile_locations_spec 2 1).2 1 (by decide)).2.2.2.2⟩

/-- C7: for every integer pair, `Board.get_location` and
`Board.get_intersection` return a value exactly when `0 ≤ row < 5` and
`0 ≤ col < 4`, and return `none` for every out-of-range pair (both are total
functions, so no error is possible). -/
theorem get_location_bounds_spec (row col : Int) :
    ((Board.get_location row col).isSome ↔
      (0 ≤ row ∧ row < 5 ∧ 0 ≤ col ∧ col < 4)) ∧
    ((Board.get_location row col = none) ↔
      ¬ (0 ≤ row ∧ row < 5 ∧ 0 ≤ col ∧ col < 4)) ∧
    ((Board.get_intersection row col).isSome ↔
      (0 ≤ row ∧ row < 5 ∧ 0 ≤ col ∧ col < 4)) ∧
    ((Board.get_intersection row col = none) ↔
      ¬ (0 ≤ row ∧ row < 5 ∧ 0 ≤ col ∧ col < 4)) := by
  have hb : Board.inBoundsP row col ↔
      (0 ≤ row ∧ row < 5 ∧ 0 ≤ col ∧ col < 4) := Iff.rfl
  by_cases h : Board.inBoundsP row col <;>
    simp [Board.get_location, Board.get_intersection, h, hb.symm]

/-! ## Deck claims -/

namespace Deck

/-- Closed form for `Deck.draw`: drawing `n` cards keeps the first
`len - min n len` library cards, appends the last `min n len` of them
(reversed, since they pop one at a time) to the hand, and touches no other
zone. -/
theorem draw_spec (n : Nat) (d : Deck) :
    (d.draw n).library =
      d.library.take (d.library.length - min n d.library.length) ∧
    (d.draw n).hand =
      d.hand ++ (d.library.drop (d.library.length - min n d.library.length)).reverse ∧
    (d.draw n).atlas = d.atlas ∧
    (d.draw n).spellbook = d.spellbook ∧
    (d.draw n).cemetery = d.cemetery := by
  induction n generalizing d with
  | zero =>
    simp [Deck.draw]
  | succ n ih =>
    rcases List.eq_nil_or_concat d.library with hnil | ⟨ys, a, hl⟩
    · have h1 : d.draw1 = d := by
        simp [Deck.draw1, hnil]
      have hspec := ih d
      simp only [Deck.draw, h1]
      simpa [hnil] using hspec
    · rw [List.concat_eq_append] at hl
      have h1 : d.draw1 = { d with hand := d.hand ++ [a], library := ys } := by
        simp [Deck.draw1, hl]
      obtain ⟨hlib, hhand, ha, hs, hc⟩ := ih d.draw1
      rw [h1] at hlib hhand ha hs hc
      dsimp only at hlib hhand ha hs hc
      have hlen : d.library.length = ys.length + 1 := by rw [hl]; simp
      have hk : d.library.length - min (n + 1) d.library.length =
          ys.length - min n ys.length := by omega
      have hkle : ys.length - min n ys.length ≤ ys.length := by omega
      refine ⟨?_, ?_, ?_, ?_, ?_⟩
      · show (d.draw1.draw n).library = _
        rw [h1, hlib, hk, hl, List.take_append_of_le_length hkle]
      · show (d.draw1.draw n).hand = _
        rw [h1, hhand, hk, hl, List.drop_append_of_le_length hkle]
        simp
      · show (d.draw1.draw n).atlas = _
        rw [h1, ha]
      · show (d.draw1.draw n).spellbook = _
        rw [h1, hs]
      · show (d.draw1.draw n).cemetery = _
        rw [h1, hc]

end Deck

/-- Counterexample for C4: `Deck.__init__` puts every Magic/Aura/Artifact
card into both `spellbook` and `library` at once, so a card instance is a
member of two of the five zones.  Concretely, a single Magic card (the
library comprehension keeps every non-Site card, so the identity permutation
is the shuffle the RNG may pick) lands in `spellbook` and in `library`. -/
theorem deck_zone_disjointness_counterexample :
    ([⟨"Wildfire", "Magic"⟩] : List Card).Perm
        (Deck.initLibrary [⟨"Wildfire", "Magic"⟩]) ∧
    (⟨"Wildfire", "Magic"⟩ : Card) ∈
        (Deck.init [⟨"Wildfire", "Magic"⟩] [⟨"Wildfire", "Magic"⟩]).spellbook ∧
    (⟨"Wildfire", "Magic"⟩ : Card) ∈
        (Deck.init [⟨"Wildfire", "Magic"⟩] [⟨"Wildfire", "Magic"⟩]).library := by
  decide

/-- C4 as amended: after `Deck.__init__`, `atlas` holds exactly the cards of
type Site, `spellbook` exactly those of type Magic, Aura or Artifact, and
`library` a permutation of exactly the non-Site cards; `hand` and `cemetery`
are empty; `atlas` is disjoint from `spellbook` and from `library`; but every
spellbook card is also a member of the library (the spellbook/library pair is
the one overlap the code creates, so the claimed pairwise disjointness of all
five zones holds for every pair except spellbook–library). -/
theorem deck_init_zone_spec (cards shuffledLib : List Card)
    (hperm : shuffledLib.Perm (Deck.initLibrary cards)) :
    (Deck.init cards shuffledLib).atlas =
      cards.filter (fun c => c.card_type = "Site") ∧
    (Deck.init cards shuffledLib).spellbook = cards.filter Deck.isSpellbookType ∧
    (Deck.init cards shuffledLib).library.Perm
      (cards.filter fun c => ¬ c.card_type = "Site") ∧
    (Deck.init cards shuffledLib).hand = [] ∧
    (Deck.init cards shuffledLib).cemetery = [] ∧
    (∀ c ∈ (Deck.init cards shuffledLib).atlas,
      c ∉ (Deck.init cards shuffledLib).spellbook) ∧
    (∀ c ∈ (Deck.init cards shuffledLib).atlas,
      c ∉ (Deck.init cards shuffledLib).library) ∧
    (∀ c ∈ (Deck.init cards shuffledLib).spellbook,
      c ∈ (Deck.init cards shuffledLib).library) := by
  refine ⟨rfl, rfl, ?_, rfl, rfl, ?_, ?_, ?_⟩
  · exact hperm
  · intro c hc hc2
    simp only [Deck.init, List.mem_filter, decide_eq_true_eq] at hc hc2
    have h2 := hc2.2
    simp only [Deck.isSpellbookType, decide_eq_true_eq] at h2
    rcases h2 with h | h | h <;> rw [hc.2] at h <;> exact absurd h (by decide)
  · intro c hc hc2
    have hc3 := hperm.mem_iff.mp hc2
    simp only [Deck.init, List.mem_filter, decide_eq_true_eq] at hc
    simp only [Deck.initLibrary, List.mem_filter, decide_eq_true_eq] at hc3
    exact hc3.2 hc.2
  · intro c hc
    have hc2 : c ∈ Deck.initLibrary cards := by
      simp only [Deck.init, List.mem_filter, decide_eq_true_eq] at hc
      have h2 := hc.2
      simp only [Deck.isSpellbookType, decide_eq_true_eq] at h2
      simp only [Deck.initLibrary, List.mem_filter, decide_eq_true_eq]
      refine ⟨hc.1, ?_⟩
      rcases h2 with h | h | h <;> rw [h] <;> decide
    exact hperm.mem_iff.mpr hc2

/-- Witness for the amended C4: a three-card list (one Site, one Magic, one
Minion) with the identity shuffle. -/
theorem deck_init_zone_spec_witness :
    (Deck.init [⟨"Arid Desert", "Site"⟩, ⟨"Wildfire", "Magic"⟩, ⟨"Squirrel", "Minion"⟩]
        [⟨"Wildfire", "Magic"⟩, ⟨"Squirrel", "Minion"⟩]).atlas =
      [⟨"Arid Desert", "Site"⟩] ∧
    (Deck.init [⟨"Arid Desert", "Site"⟩, ⟨"Wildfire", "Magic"⟩, ⟨"Squirrel", "Minion"⟩]
        [⟨"Wildfire", "Magic"⟩, ⟨"Squirrel", "Minion"⟩]).spellbook =
      [⟨"Wildfire", "Magic"⟩] := by
  have h := deck_init_zone_spec
    [⟨"Arid Desert", "Site"⟩, ⟨"Wildfire", "Magic"⟩, ⟨"Squirrel", "Minion"⟩]
    [⟨"Wildfire", "Magic"⟩, ⟨"Squirrel", "Minion"⟩] (by decide)
  exact ⟨h.1.trans (by decide), h.2.1.trans (by decide)⟩

/-- C10: `Deck.draw(n)` moves exactly `min n (library size)` cards from the
top (the end) of the library to the hand and never errors — drawing from an
empty library leaves the deck unchanged, and the combined multiset of library
plus hand is conserved. -/
theorem draw_moves_min_from_top (d : Deck) (n : Nat) :
    (d.draw n).library =
      d.library.take (d.library.length - min n d.library.length) ∧
    (d.draw n).hand =
      d.hand ++ (d.library.drop (d.library.length - min n d.library.length)).reverse ∧
    (d.draw n).hand.length = d.hand.length + min n d.library.length ∧
    (d.library = [] → d.draw n = d) ∧
    ((d.draw n).library ++ (d.draw n).hand).Perm (d.library ++ d.hand) := by
  obtain ⟨hlib, hhand, ha, hs, hc⟩ := Deck.draw_spec n d
  refine ⟨hlib, hhand, ?_, ?_, ?_⟩
  · rw [hhand]
    simp only [List.length_append, List.length_reverse, List.length_drop]
    omega
  · intro hnil
    apply Deck.ext <;> simp [hlib, hhand, ha, hs, hc, hnil]
  · rw [hlib, hhand]
    have p1 : List.Perm
        (d.library.take (d.library.length - min n d.library.length) ++
          (d.hand ++ (d.library.drop (d.library.length - min n d.library.length)).reverse))
        (d.library.take (d.library.length - min n d.library.length) ++
          ((d.library.drop (d.library.length - min n d.library.length)).reverse ++ d.hand)) :=
      List.Perm.append_left _ List.perm_append_comm
    have p2 : List.Perm
        (d.library.take (d.library.length - min n d.library.length) ++
          ((d.library.drop (d.library.length - min n d.library.length)).reverse ++ d.hand))
        (d.library.take (d.library.length - min n d.library.length) ++
          (d.library.drop (d.library.length - min n d.library.length) ++ d.hand)) :=
      List.Perm.append_left _ (List.Perm.append_right _ (List.reverse_perm _))
    have p3 : d.library.take (d.library.length - min n d.library.length) ++
          (d.library.drop (d.library.length - min n d.library.length) ++ d.hand) =
        d.library ++ d.hand := by
      rw [← List.append_assoc, List.take_append_drop]
    exact (p1.trans p2).trans (p3 ▸ List.Perm.refl _)

/-- Witness for C10 at a concrete deck: drawing 3 from a 2-card library moves
both cards (in pop order) and conserves the multiset. -/
theorem draw_moves_min_from_top_witness :
    let d : Deck := { atlas := [], spellbook := [], hand := [⟨"Wildfire", "Magic"⟩],
                      cemetery := [], library := [⟨"Pudge Butcher", "Minion"⟩, ⟨"Squirrel", "Minion"⟩] }
    (d.draw 3).library =
      d.library.take (d.library.length - min 3 d.library.length) ∧
    (d.draw 3).hand =
      d.hand ++ (d.library.drop (d.library.length - min 3 d.library.length)).reverse ∧
    (d.draw 3).hand.length = d.hand.length + min 3 d.library.length ∧
    (d.library = [] → d.draw 3 = d) ∧
    ((d.draw 3).library ++ (d.draw 3).hand).Perm (d.library ++ d.hand) :=
  draw_moves_min_from_top
    { atlas := [], spellbook := [], hand := [⟨"Wildfire", "Magic"⟩],
      cemetery := [], library := [⟨"Pudge Butcher", "Minion"⟩, ⟨"Squirrel", "Minion"⟩] } 3

/-- C6: `Deck.shuffle` followed by `Deck.draw` of the whole library empties
the library into the hand — the block of cards added to the hand is a
permutation of the original library multiset (shuffling is a permutation and
drawing loses no card). -/
theorem shuffle_draw_all_roundtrip (d : Deck) (shuffledLib : List Card)
    (hperm : shuffledLib.Perm d.library) :
    ((d.shuffle shuffledLib).draw shuffledLib.length).library = [] ∧
    ((d.shuffle shuffledLib).draw shuffledLib.length).hand =
      d.hand ++ shuffledLib.reverse ∧
    shuffledLib.reverse.Perm d.library := by
  obtain ⟨hlib, hhand, _, _, _⟩ :=
    Deck.draw_spec shuffledLib.length (d.shuffle shuffledLib)
  have hL : (d.shuffle shuffledLib).library = shuffledLib := rfl
  have hH : (d.shuffle shuffledLib).hand = d.hand := rfl
  rw [hL] at hlib hhand
  rw [hH] at hhand
  refine ⟨?_, ?_, (List.reverse_perm _).trans hperm⟩
  · rw [hlib]; simp
  · rw [hhand]; simp

/-- Witness for C6: a concrete two-card library, shuffled into reverse order,
drawn in full. -/
theorem shuffle_draw_all_roundtrip_witness :
    let d : Deck := { atlas := [], spellbook := [], hand := [],
                      cemetery := [], library := [⟨"Wildfire", "Magic"⟩, ⟨"Squirrel", "Minion"⟩] }
    let s : List Card := [⟨"Squirrel", "Minion"⟩, ⟨"Wildfire", "Magic"⟩]
    ((d.shuffle s).draw s.length).library = [] ∧
    ((d.shuffle s).draw s.length).hand = d.hand ++ s.reverse ∧
    s.reverse.Perm d.library :=
  shuffle_draw_all_roundtrip
    { atlas := [], spellbook := [], hand := [],
      cemetery := [], library := [⟨"Wildfire", "Magic"⟩, ⟨"Squirrel", "Minion"⟩] }
    [⟨"Squirrel", "Minion"⟩, ⟨"Wildfire", "Magic"⟩] (by decide)

/-- C5: for a deck whose hand holds 7 cards, `Deck.mulligan` yields a hand of
exactly 7 cards drawn from a re-shuffled library containing the returned hand
plus the previously remaining library; library size is conserved and so is
the combined library-plus-hand multiset. -/
theorem mulligan_spec (d : Deck) (shuffledLib : List Card)
    (hhand : d.hand.length = 7)
    (hperm : shuffledLib.Perm (d.library ++ d.hand)) :
    (d.mulligan shuffledLib).hand.length = 7 ∧
    (d.mulligan shuffledLib).library.length = d.library.length ∧
    ((d.mulligan shuffledLib).library ++ (d.mulligan shuffledLib).hand).Perm
      (d.library ++ d.hand) := by
  have hlen : shuffledLib.length = d.library.length + 7 := by
    have h := hperm.length_eq
    simp only [List.length_append, hhand] at h
    omega
  obtain ⟨hlib, hhand2, _, _, _⟩ :=
    Deck.draw_spec 7
      (Deck.shuffle { d with library := d.library ++ d.hand, hand := [] } shuffledLib)
  have he : d.mulligan shuffledLib =
      (Deck.shuffle { d with library := d.library ++ d.hand, hand := [] }
        shuffledLib).draw 7 := rfl
  have hL : (Deck.shuffle { d with library := d.library ++ d.hand, hand := [] }
      shuffledLib).library = shuffledLib := rfl
  have hH : (Deck.shuffle { d with library := d.library ++ d.hand, hand := [] }
      shuffledLib).hand = [] := rfl
  rw [hL] at hlib hhand2
  rw [hH] at hhand2
  have hm : min 7 shuffledLib.length = 7 := by omega
  refine ⟨?_, ?_, ?_⟩
  · rw [he, hhand2]
    simp only [List.nil_append, List.length_reverse, List.length_drop]
    omega
  · rw [he, hlib]
    simp only [List.length_take]
    omega
  · rw [he, hlib, hhand2]
    have p1 : List.Perm
        (shuffledLib.take (shuffledLib.length - min 7 shuffledLib.length) ++
          ([] ++ (shuffledLib.drop (shuffledLib.length - min 7 shuffledLib.length)).reverse))
        (shuffledLib.take (shuffledLib.length - min 7 shuffledLib.length) ++
          shuffledLib.drop (shuffledLib.length - min 7 shuffledLib.length)) := by
      simp only [List.nil_append]
      exact List.Perm.append_left _ (List.reverse_perm _)
    have p2 : shuffledLib.take (shuffledLib.length - min 7 shuffledLib.length) ++
        shuffledLib.drop (shuffledLib.length - min 7 shuffledLib.length) = shuffledLib :=
      List.take_append_drop _ _
    refine p1.trans ?_
    rw [p2]
    exact hperm

/-- Witness for C5: a concrete deck with a 7-card hand and a 1-card library,
mulliganed through a concrete re-shuffle of those 8 cards. -/
theorem mulligan_spec_witness :
    let d : Deck := { atlas := [], spellbook := [],
                      hand := [⟨"h1", "Magic"⟩, ⟨"h2", "Magic"⟩, ⟨"h3", "Magic"⟩,
                               ⟨"h4", "Minion"⟩, ⟨"h5", "Minion"⟩, ⟨"h6", "Aura"⟩,
                               ⟨"h7", "Artifact"⟩],
                      cemetery := [], library := [⟨"l1", "Minion"⟩] }
    let s : List Card := [⟨"h7", "Artifact"⟩, ⟨"l1", "Minion"⟩, ⟨"h5", "Minion"⟩,
      ⟨"h3", "Magic"⟩, ⟨"h1", "Magic"⟩, ⟨"h2", "Magic"⟩, ⟨"h6", "Aura"⟩, ⟨"h4", "Minion"⟩]
    (d.mulligan s).hand.length = 7 ∧
    (d.mulligan s).library.length = d.library.length ∧
    ((d.mulligan s).library ++ (d.mulligan s).hand).Perm (d.library ++ d.hand) :=
  mulligan_spec
    { atlas := [], spellbook := [],
      hand := [⟨"h1", "Magic"⟩, ⟨"h2", "Magic"⟩, ⟨"h3", "Magic"⟩, ⟨"h4", "Minion"⟩,
               ⟨"h5", "Minion"⟩, ⟨"h6", "Aura"⟩, ⟨"h7", "Artifact"⟩],
      cemetery := [], library := [⟨"l1", "Minion"⟩] }
    [⟨"h7", "Artifact"⟩, ⟨"l1", "Minion"⟩, ⟨"h5", "Minion"⟩,
     ⟨"h3", "Magic"⟩, ⟨"h1", "Magic"⟩, ⟨"h2", "Magic"⟩, ⟨"h6", "Aura"⟩, ⟨"h4", "Minion"⟩]
    (by decide) (by decide)
